import Mathlib

/-!
Shallow embedding of the permissioned blob store (`blob_service`):
`src/models.py` (BlobMeta), `src/persistence.py` (BlobPersistence) and
`src/business.py` (BlobService), followed by theorems settling the
specification claims.

The filesystem directory `{storage}/` holding `{id}.data` and `{id}.json`
files is modelled as a pair of key/value maps (association lists with
map semantics: lookup finds the unique binding, insert overwrites,
erase removes the binding).  Bytes are modelled as `List Nat`.
Exceptions (`BlobNotFound`, `Forbidden`) are modelled with `Except`;
mutating service operations return the resulting store state on every
path, so that "no write happened before the raise" is expressible.
`uuid.uuid4()` is external nondeterminism: the fresh identifier is an
explicit argument of `create_blob`.  Python `list(set(xs))` has
unspecified order; it is modelled by `List.dedup`, which is faithful up
to ordering (membership and absence of duplicates).
-/

namespace BlobStore

/-- Lookup in an association list with string keys (first binding wins,
like a filesystem directory where keys are unique). -/
def lookupKV {α : Type} (k : String) : List (String × α) → Option α
  | [] => none
  | (k', v) :: rest => if k' = k then some v else lookupKV k rest

/-- Overwrite-or-append insert, modelling writing file `{k}`. -/
def insertKV {α : Type} (k : String) (v : α) : List (String × α) → List (String × α)
  | [] => [(k, v)]
  | (k', v') :: rest => if k' = k then (k, v) :: rest else (k', v') :: insertKV k v rest

/-- Remove every binding of key `k`, modelling `os.remove` of file `{k}`. -/
def eraseKV {α : Type} (k : String) : List (String × α) → List (String × α)
  | [] => []
  | (k', v') :: rest => if k' = k then eraseKV k rest else (k', v') :: eraseKV k rest

/-- Python `list.remove`: removes the first occurrence only. -/
def removeFirst (x : String) : List String → List String
  | [] => []
  | y :: ys => if y = x then ys else y :: removeFirst x ys

/-- `models.py` dataclass `BlobMeta`.  `extra` is opaque to the core;
it is modelled as an association list of strings. -/
structure BlobMeta where
  id : String
  name : String
  owner : String
  readable_by : List String
  extra : List (String × String)
deriving DecidableEq, Repr

/-- The two exception classes of `business.py`, with their constructor
arguments. -/
inductive BlobError where
  | notFound (blob_id : String)
  | forbidden (blob_id : String) (user : String)
deriving DecidableEq, Repr

/-- The storage directory of `BlobPersistence`: the `.json` files
(metadata) and the `.data` files (content), keyed by blob id. -/
structure Store where
  metas : List (String × BlobMeta)
  datas : List (String × List Nat)
deriving DecidableEq, Repr

namespace Store

/-- `BlobPersistence.create`: writes `{id}.data` then `{id}.json`,
unconditionally overwriting. -/
def create (s : Store) (meta : BlobMeta) (content : List Nat) : Store :=
  { metas := insertKV meta.id meta s.metas,
    datas := insertKV meta.id content s.datas }

/-- `BlobPersistence.read_content`: `None` when `{id}.data` is missing. -/
def read_content (s : Store) (blob_id : String) : Option (List Nat) :=
  lookupKV blob_id s.datas

/-- `BlobPersistence.read_meta`: `None` when `{id}.json` is missing. -/
def read_meta (s : Store) (blob_id : String) : Option BlobMeta :=
  lookupKV blob_id s.metas

/-- `BlobPersistence.update_content`: returns `False` (store untouched)
when `{id}.data` does not exist, else overwrites it. -/
def update_content (s : Store) (blob_id : String) (new_content : List Nat) : Store × Bool :=
  match lookupKV blob_id s.datas with
  | none => (s, false)
  | some _ => ({ s with datas := insertKV blob_id new_content s.datas }, true)

/-- `BlobPersistence.update_meta`: keyed by `meta.id`; returns `False`
(store untouched) when `{meta.id}.json` does not exist. -/
def update_meta (s : Store) (meta : BlobMeta) : Store × Bool :=
  match lookupKV meta.id s.metas with
  | none => (s, false)
  | some _ => ({ s with metas := insertKV meta.id meta s.metas }, true)

/-- `BlobPersistence.delete`: fails without removing anything when
either half is missing; otherwise removes both. -/
def delete (s : Store) (blob_id : String) : Store × Bool :=
  if (lookupKV blob_id s.datas).isNone ∨ (lookupKV blob_id s.metas).isNone then
    (s, false)
  else
    ({ metas := eraseKV blob_id s.metas, datas := eraseKV blob_id s.datas }, true)

/-- `BlobPersistence.list_ids`: ids having a `.json` file. -/
def list_ids (s : Store) : List String :=
  s.metas.map (fun p => p.1)

end Store

namespace BlobService

/-- `BlobService._check_access`: existence check on metadata first, then
the `owner_only` check, then the `read` check. -/
def check_access (s : Store) (user blob_id : String) (read owner_only : Bool) :
    Except BlobError BlobMeta :=
  match s.read_meta blob_id with
  | none => .error (.notFound blob_id)
  | some meta =>
    if owner_only ∧ user ≠ meta.owner then .error (.forbidden blob_id user)
    else if read ∧ user ∉ meta.readable_by then .error (.forbidden blob_id user)
    else .ok meta

/-- `BlobService.create_blob`.  `blob_id` is the externally generated
`uuid.uuid4()`; `readers = list(set((readable_by or []) + [user]))`. -/
def create_blob (s : Store) (user nm : String) (content : List Nat)
    (readable_by : Option (List String)) (extra : Option (List (String × String)))
    (blob_id : String) : Store × String :=
  let readers := ((readable_by.getD []) ++ [user]).dedup
  let meta : BlobMeta :=
    { id := blob_id, name := nm, owner := user, readable_by := readers,
      extra := extra.getD [] }
  (s.create meta content, blob_id)

/-- `BlobService.update_blob`: inline meta-existence check, owner check,
then `update_content` whose failure raises `BlobNotFound`. -/
def update_blob (s : Store) (user blob_id : String) (new_content : List Nat) :
    Store × Except BlobError Unit :=
  match s.read_meta blob_id with
  | none => (s, .error (.notFound blob_id))
  | some meta =>
    if user ≠ meta.owner then (s, .error (.forbidden blob_id user))
    else
      let r := s.update_content blob_id new_content
      if r.2 then (r.1, .ok ()) else (r.1, .error (.notFound blob_id))

/-- `BlobService.read_blob`: read-access check, then content fetch whose
absence raises `BlobNotFound`.  Performs no writes. -/
def read_blob (s : Store) (user blob_id : String) : Except BlobError (List Nat) :=
  match check_access s user blob_id true false with
  | .error e => .error e
  | .ok _ =>
    match s.read_content blob_id with
    | none => .error (.notFound blob_id)
    | some data => .ok data

/-- `BlobService.delete_blob`: owner-only access check, then
`persistence.delete` whose failure raises `BlobNotFound`. -/
def delete_blob (s : Store) (user blob_id : String) : Store × Except BlobError Unit :=
  match check_access s user blob_id false true with
  | .error e => (s, .error e)
  | .ok _ =>
    let r := s.delete blob_id
    if r.2 then (r.1, .ok ()) else (r.1, .error (.notFound blob_id))

/-- `BlobService.list_blobs`: ids whose metadata lists `user` as reader.
Performs no writes. -/
def list_blobs (s : Store) (user : String) : List (String × String × String) :=
  (s.list_ids).filterMap (fun blob_id =>
    match s.read_meta blob_id with
    | some meta =>
      if user ∈ meta.readable_by then some (meta.id, meta.name, meta.owner) else none
    | none => none)

/-- `BlobService.modify_blob`: owner-only; renames only when `new_name`
is truthy (neither `None` nor the empty string). -/
def modify_blob (s : Store) (user blob_id : String) (new_name : Option String) :
    Store × Except BlobError Unit :=
  match check_access s user blob_id false true with
  | .error e => (s, .error e)
  | .ok meta =>
    match new_name with
    | none => (s, .ok ())
    | some nn =>
      if nn = "" then (s, .ok ())
      else ((s.update_meta { meta with name := nn }).1, .ok ())

/-- `BlobService.replace_blob`: owner-only access check through
`_check_access`, then `update_content`. -/
def replace_blob (s : Store) (user blob_id : String) (new_content : List Nat) :
    Store × Except BlobError Unit :=
  match check_access s user blob_id false true with
  | .error e => (s, .error e)
  | .ok _ =>
    let r := s.update_content blob_id new_content
    if r.2 then (r.1, .ok ()) else (r.1, .error (.notFound blob_id))

/-- `BlobService.set_readable_by`: owner-only; appends `user` to the new
list when absent, then stores `list(set(new_list))`, ignoring the
`update_meta` result. -/
def set_readable_by (s : Store) (user blob_id : String) (new_list : List String) :
    Store × Except BlobError Unit :=
  match check_access s user blob_id false true with
  | .error e => (s, .error e)
  | .ok meta =>
    let l := if user ∈ new_list then new_list else new_list ++ [user]
    ((s.update_meta { meta with readable_by := l.dedup }).1, .ok ())

/-- `BlobService.get_meta`: read-access check, returns the metadata.
Performs no writes. -/
def get_meta (s : Store) (user blob_id : String) : Except BlobError BlobMeta :=
  check_access s user blob_id true false

/-- `BlobService.get_readable_by`: read-access check, returns the reader
list.  Performs no writes. -/
def get_readable_by (s : Store) (user blob_id : String) : Except BlobError (List String) :=
  match check_access s user blob_id true false with
  | .error e => .error e
  | .ok meta => .ok meta.readable_by

/-- `BlobService.set_name`: owner-only; unconditional rename, ignoring
the `update_meta` result. -/
def set_name (s : Store) (user blob_id : String) (new_name : String) :
    Store × Except BlobError Unit :=
  match check_access s user blob_id false true with
  | .error e => (s, .error e)
  | .ok meta => ((s.update_meta { meta with name := new_name }).1, .ok ())

/-- `BlobService.add_reader`: owner-only; appends the target and writes
back only when the target is not yet a reader. -/
def add_reader (s : Store) (user blob_id target_user : String) :
    Store × Except BlobError Unit :=
  match check_access s user blob_id false true with
  | .error e => (s, .error e)
  | .ok meta =>
    if target_user ∉ meta.readable_by then
      ((s.update_meta { meta with readable_by := meta.readable_by ++ [target_user] }).1, .ok ())
    else (s, .ok ())

/-- `BlobService.remove_reader`: owner-only; removes the first occurrence
of the target and writes back only when the target is a reader distinct
from the owner. -/
def remove_reader (s : Store) (user blob_id target_user : String) :
    Store × Except BlobError Unit :=
  match check_access s user blob_id false true with
  | .error e => (s, .error e)
  | .ok meta =>
    if target_user ∈ meta.readable_by ∧ target_user ≠ meta.owner then
      ((s.update_meta { meta with readable_by := removeFirst target_user meta.readable_by }).1, .ok ())
    else (s, .ok ())

end BlobService

/-- The reader-list invariant of the spec: every stored metadata record
lists its owner among its readers. -/
def MetaInv (s : Store) : Prop :=
  ∀ p ∈ s.metas, p.2.owner ∈ p.2.readable_by

instance (s : Store) : Decidable (MetaInv s) :=
  List.decidableBAll _ s.metas

/-- Concrete fixture: metadata of blob "b1" owned by "alice". -/
def sampleMeta : BlobMeta :=
  { id := "b1", name := "demo.txt", owner := "alice", readable_by := ["alice"],
    extra := [] }

/-- Concrete fixture: a store holding the single complete blob "b1",
owned by "alice", with content `[104, 105]`. -/
def sampleStore : Store :=
  { metas := [("b1", sampleMeta)], datas := [("b1", [104, 105])] }

/-- Concrete fixture: a store where blob "b1" has a metadata record but
no content record (an incomplete record). -/
def halfStore : Store :=
  { metas := [("b1", sampleMeta)], datas := [] }

theorem lookupKV_insertKV_self {α : Type} (k : String) (v : α) (l : List (String × α)) :
    lookupKV k (insertKV k v l) = some v := by
  induction l with
  | nil => simp [insertKV, lookupKV]
  | cons p rest ih =>
    obtain ⟨k', v'⟩ := p
    by_cases h : k' = k
    · simp [insertKV, h, lookupKV]
    · simp [insertKV, h, lookupKV, ih]

theorem lookupKV_insertKV_ne {α : Type} {q k : String} (hne : q ≠ k) (v : α)
    (l : List (String × α)) : lookupKV q (insertKV k v l) = lookupKV q l := by
  induction l with
  | nil => simp [insertKV, lookupKV, Ne.symm hne]
  | cons p rest ih =>
    obtain ⟨k', v'⟩ := p
    by_cases h : k' = k
    · subst h
      simp [insertKV, lookupKV, Ne.symm hne]
    · simp [insertKV, h, lookupKV, ih]

theorem lookupKV_eraseKV_self {α : Type} (k : String) (l : List (String × α)) :
    lookupKV k (eraseKV k l) = none := by
  induction l with
  | nil => simp [eraseKV, lookupKV]
  | cons p rest ih =>
    obtain ⟨k', v'⟩ := p
    by_cases h : k' = k
    · simp [eraseKV, h, ih]
    · simp [eraseKV, h, lookupKV, ih]

theorem lookupKV_mem {α : Type} {k : String} {v : α} {l : List (String × α)}
    (h : lookupKV k l = some v) : (k, v) ∈ l := by
  induction l with
  | nil => simp [lookupKV] at h
  | cons p rest ih =>
    obtain ⟨k', v'⟩ := p
    by_cases hk : k' = k
    · subst hk
      simp [lookupKV] at h
      subst h
      exact List.mem_cons_self _ _
    · simp [lookupKV, hk] at h
      exact List.mem_cons_of_mem _ (ih h)

theorem mem_insertKV {α : Type} {p : String × α} {k : String} {v : α}
    {l : List (String × α)} (h : p ∈ insertKV k v l) : p = (k, v) ∨ p ∈ l := by
  induction l with
  | nil => simpa [insertKV] using h
  | cons q rest ih =>
    obtain ⟨k', v'⟩ := q
    by_cases hk : k' = k
    · simp [insertKV, hk] at h
      rcases h with h | h
      · exact Or.inl (by simp [h])
      · exact Or.inr (List.mem_cons_of_mem _ h)
    · simp [insertKV, hk] at h
      rcases h with h | h
      · exact Or.inr (by simp [h])
      · rcases ih h with h2 | h2
        · exact Or.inl h2
        · exact Or.inr (List.mem_cons_of_mem _ h2)

theorem mem_eraseKV {α : Type} {p : String × α} {k : String}
    {l : List (String × α)} (h : p ∈ eraseKV k l) : p ∈ l := by
  induction l with
  | nil => simp [eraseKV] at h
  | cons q rest ih =>
    obtain ⟨k', v'⟩ := q
    by_cases hk : k' = k
    · simp [eraseKV, hk] at h
      exact List.mem_cons_of_mem _ (ih h)
    · simp [eraseKV, hk] at h
      rcases h with h | h
      · exact List.mem_cons.mpr (Or.inl h)
      · exact List.mem_cons_of_mem _ (ih h)

theorem mem_removeFirst {x t : String} {l : List String}
    (hx : x ∈ l) (hne : x ≠ t) : x ∈ removeFirst t l := by
  induction l with
  | nil => simp at hx
  | cons y ys ih =>
    by_cases hy : y = t
    · subst hy
      simp [removeFirst]
      rcases List.mem_cons.mp hx with h | h
      · exact absurd h hne
      · exact h
    · simp [removeFirst, hy]
      rcases List.mem_cons.mp hx with h | h
      · exact Or.inl h
      · exact Or.inr (ih h)

theorem insertKV_idem {α : Type} (k : String) (v : α) (l : List (String × α)) :
    insertKV k v (insertKV k v l) = insertKV k v l := by
  induction l with
  | nil => simp [insertKV]
  | cons p rest ih =>
    obtain ⟨k', v'⟩ := p
    by_cases h : k' = k
    · simp [insertKV, h]
    · simp [insertKV, h, ih]

theorem check_access_absent {s : Store} {blob_id : String}
    (hm : s.read_meta blob_id = none) (user : String) (read owner_only : Bool) :
    BlobService.check_access s user blob_id read owner_only =
      .error (.notFound blob_id) := by
  simp [BlobService.check_access, hm]

theorem check_access_owner_ok {s : Store} {user blob_id : String} {meta : BlobMeta}
    (hm : s.read_meta blob_id = some meta) (ho : user = meta.owner) :
    BlobService.check_access s user blob_id false true = .ok meta := by
  simp [BlobService.check_access, hm, ho]

theorem check_access_nonowner {s : Store} {user blob_id : String} {meta : BlobMeta}
    (hm : s.read_meta blob_id = some meta) (ho : user ≠ meta.owner) (read : Bool) :
    BlobService.check_access s user blob_id read true =
      .error (.forbidden blob_id user) := by
  simp [BlobService.check_access, hm, ho]

theorem check_access_ok_facts {s : Store} {user blob_id : String}
    {read owner_only : Bool} {meta : BlobMeta}
    (h : BlobService.check_access s user blob_id read owner_only = .ok meta) :
    s.read_meta blob_id = some meta ∧ (blob_id, meta) ∈ s.metas ∧
      (owner_only = true → user = meta.owner) := by
  unfold BlobService.check_access at h
  cases hm : s.read_meta blob_id with
  | none => rw [hm] at h; simp at h
  | some m =>
    rw [hm] at h
    dsimp only at h
    split_ifs at h with h1 h2
    injection h with heq
    subst heq
    refine ⟨rfl, lookupKV_mem hm, ?_⟩
    intro hoo
    by_contra hne
    exact h1 ⟨hoo, hne⟩

theorem metaInv_insert {s : Store} (hs : MetaInv s) {k : String} {m : BlobMeta}
    (hm : m.owner ∈ m.readable_by) (d : List (String × List Nat)) :
    MetaInv { metas := insertKV k m s.metas, datas := d } := by
  intro p hp
  rcases mem_insertKV hp with h | h
  · subst h; exact hm
  · exact hs p h

theorem metaInv_update_meta {s : Store} (hs : MetaInv s) {m : BlobMeta}
    (hm : m.owner ∈ m.readable_by) : MetaInv (s.update_meta m).1 := by
  unfold Store.update_meta
  cases h : lookupKV m.id s.metas with
  | none => exact hs
  | some _ => exact metaInv_insert hs hm s.datas

theorem metaInv_update_content {s : Store} (hs : MetaInv s)
    (blob_id : String) (c : List Nat) : MetaInv (s.update_content blob_id c).1 := by
  unfold Store.update_content
  cases h : lookupKV blob_id s.datas with
  | none => exact hs
  | some _ => exact hs

theorem metaInv_delete {s : Store} (hs : MetaInv s) (blob_id : String) :
    MetaInv (s.delete blob_id).1 := by
  unfold Store.delete
  by_cases h : (lookupKV blob_id s.datas).isNone ∨ (lookupKV blob_id s.metas).isNone
  · simp only [if_pos h]
    exact hs
  · simp only [if_neg h]
    exact fun p hp => hs p (mem_eraseKV hp)

/-- C7: Round-trip — `create_blob o n c` returns the generated id, after
which `read_blob` by the owner returns exactly `c` and `get_meta` by the
owner returns metadata with the supplied name and with the owner as
recorded owner. -/
theorem createObject_roundtrip (s : Store) (user nm : String) (content : List Nat)
    (readable_by : Option (List String)) (extra : Option (List (String × String)))
    (fresh_id : String) :
    (BlobService.create_blob s user nm content readable_by extra fresh_id).2 = fresh_id ∧
    BlobService.read_blob
        (BlobService.create_blob s user nm content readable_by extra fresh_id).1
        user fresh_id = .ok content ∧
    ∃ meta, BlobService.get_meta
        (BlobService.create_blob s user nm content readable_by extra fresh_id).1
        user fresh_id = .ok meta ∧ meta.name = nm ∧ meta.owner = user := by
  refine ⟨rfl, ?_, ?_⟩
  · simp [BlobService.create_blob, BlobService.read_blob, BlobService.check_access,
      Store.create, Store.read_meta, Store.read_content, lookupKV_insertKV_self,
      List.mem_dedup]
  · refine ⟨BlobMeta.mk fresh_id nm user (((readable_by.getD []) ++ [user]).dedup)
        (extra.getD []), ?_, rfl, rfl⟩
    simp [BlobService.create_blob, BlobService.get_meta, BlobService.check_access,
      Store.create, Store.read_meta, lookupKV_insertKV_self, List.mem_dedup]

/-- C10: the two content-replacement entry points `update_blob` and
`replace_blob` produce the same outcome and the same resulting store on
every input. -/
theorem update_blob_eq_replace_blob (s : Store) (user blob_id : String)
    (new_content : List Nat) :
    BlobService.update_blob s user blob_id new_content =
      BlobService.replace_blob s user blob_id new_content := by
  unfold BlobService.update_blob BlobService.replace_blob BlobService.check_access
  cases hm : s.read_meta blob_id with
  | none => rfl
  | some meta =>
    by_cases ho : user = meta.owner
    · simp [ho]
    · simp [ho]

/-- C2: when the metadata record of `blob_id` is absent, every service
operation fails with `BlobNotFound` (never `Forbidden`) and leaves the
store untouched: the existence check precedes every permission check. -/
theorem absent_meta_yields_notfound (s : Store) (user blob_id target : String)
    (new_content : List Nat) (new_list : List String)
    (habs : s.read_meta blob_id = none) :
    BlobService.read_blob s user blob_id = .error (.notFound blob_id) ∧
    BlobService.get_meta s user blob_id = .error (.notFound blob_id) ∧
    BlobService.update_blob s user blob_id new_content =
      (s, .error (.notFound blob_id)) ∧
    BlobService.delete_blob s user blob_id = (s, .error (.notFound blob_id)) ∧
    BlobService.add_reader s user blob_id target = (s, .error (.notFound blob_id)) ∧
    BlobService.remove_reader s user blob_id target =
      (s, .error (.notFound blob_id)) ∧
    BlobService.set_readable_by s user blob_id new_list =
      (s, .error (.notFound blob_id)) := by
  refine ⟨?_, ?_, ?_, ?_, ?_, ?_, ?_⟩ <;>
    simp [BlobService.read_blob, BlobService.get_meta, BlobService.update_blob,
      BlobService.delete_blob, BlobService.add_reader, BlobService.remove_reader,
      BlobService.set_readable_by, check_access_absent habs, habs]

/-- C2 witness: on the empty store, reading id "x" as "alice" yields
`BlobNotFound "x"`, not `Forbidden`. -/
theorem absent_meta_yields_notfound_witness :
    (Store.mk [] []).read_meta "x" = none ∧
    BlobService.read_blob (Store.mk [] []) "alice" "x" =
      .error (.notFound "x") :=
  ⟨rfl, (absent_meta_yields_notfound (Store.mk [] []) "alice" "x" "bob" [] [] rfl).1⟩

/-- C4: set_readable_by called by the owner stores exactly
union(list, \x7bowner\x7d) as the new reader set: the owner is injected
into any replacement list and can never be removed wholesale. -/
theorem setReaderList_union (s : Store) (user blob_id : String)
    (new_list : List String) (meta : BlobMeta)
    (hmeta : s.read_meta blob_id = some meta) (hown : user = meta.owner)
    (hid : meta.id = blob_id) :
    ∃ s', BlobService.set_readable_by s user blob_id new_list = (s', .ok ()) ∧
      ∃ meta', s'.read_meta blob_id = some meta' ∧ meta'.owner = meta.owner ∧
        ∀ x, x ∈ meta'.readable_by ↔ (x ∈ new_list ∨ x = meta.owner) := by
  have hca := check_access_owner_ok hmeta hown
  have hlook : lookupKV blob_id s.metas = some meta := hmeta
  unfold BlobService.set_readable_by
  rw [hca]
  dsimp only
  unfold Store.update_meta
  dsimp only
  rw [hid, hlook]
  dsimp only
  refine ⟨_, rfl, BlobMeta.mk blob_id meta.name meta.owner
      ((if user ∈ new_list then new_list else new_list ++ [user]).dedup) meta.extra,
    ?_, rfl, ?_⟩
  · exact lookupKV_insertKV_self _ _ _
  · intro x
    by_cases hin : user ∈ new_list
    · simp only [hin, if_true, List.mem_dedup]
      constructor
      · exact fun h => Or.inl h
      · rintro (h | h)
        · exact h
        · rw [h, ← hown]
          exact hin
    · simp only [hin, if_false, List.mem_dedup, List.mem_append,
        List.mem_singleton]
      constructor
      · rintro (h | h)
        · exact Or.inl h
        · exact Or.inr (h.trans hown)
      · rintro (h | h)
        · exact Or.inl h
        · exact Or.inr (h.trans hown.symm)

/-- C4 witness: `set_readable_by alice "b1" ["bob"]` on the blob of alice
stores readers whose membership is exactly \x7b"alice", "bob"\x7d. -/
theorem setReaderList_union_witness :
    sampleStore.read_meta "b1" = some sampleMeta ∧
    (∃ s', BlobService.set_readable_by sampleStore "alice" "b1" ["bob"] =
        (s', .ok ()) ∧
      ∃ meta', s'.read_meta "b1" = some meta' ∧ meta'.owner = sampleMeta.owner ∧
        ∀ x, x ∈ meta'.readable_by ↔ (x ∈ ["bob"] ∨ x = sampleMeta.owner)) :=
  ⟨rfl, setReaderList_union sampleStore "alice" "b1" ["bob"] sampleMeta rfl rfl rfl⟩

/-- C5: remove_reader called by the owner with the owner as target, or
with a target outside the reader list, succeeds and leaves the store
(hence the reader set) unchanged. -/
theorem removeReader_owner_noop (s : Store) (user blob_id target : String)
    (meta : BlobMeta) (hmeta : s.read_meta blob_id = some meta)
    (hown : user = meta.owner)
    (htgt : target = meta.owner ∨ target ∉ meta.readable_by) :
    BlobService.remove_reader s user blob_id target = (s, .ok ()) := by
  have hca := check_access_owner_ok hmeta hown
  unfold BlobService.remove_reader
  rw [hca]
  dsimp only
  rcases htgt with h | h
  · simp [h]
  · simp [h]

/-- C5 witness: removing the owner "alice", and removing the non-member
"carol", from the blob "b1" of alice are both no-op successes. -/
theorem removeReader_owner_noop_witness :
    sampleStore.read_meta "b1" = some sampleMeta ∧
    BlobService.remove_reader sampleStore "alice" "b1" "alice" =
      (sampleStore, .ok ()) ∧
    BlobService.remove_reader sampleStore "alice" "b1" "carol" =
      (sampleStore, .ok ()) :=
  ⟨rfl,
   removeReader_owner_noop sampleStore "alice" "b1" "alice" sampleMeta rfl rfl
     (Or.inl rfl),
   removeReader_owner_noop sampleStore "alice" "b1" "carol" sampleMeta rfl rfl
     (Or.inr (by decide))⟩

/-- C6: add_reader is idempotent — after a successful call, a second call
with the same target returns the same store unchanged, and adding an
already-present reader is a no-op success. -/
theorem addReader_idempotent (s : Store) (user blob_id target : String) :
    (∀ s', BlobService.add_reader s user blob_id target = (s', .ok ()) →
      BlobService.add_reader s' user blob_id target = (s', .ok ())) ∧
    (∀ meta, s.read_meta blob_id = some meta → user = meta.owner →
      target ∈ meta.readable_by →
      BlobService.add_reader s user blob_id target = (s, .ok ())) := by
  constructor
  · intro s' h
    unfold BlobService.add_reader at h ⊢
    cases hca : BlobService.check_access s user blob_id false true with
    | error e => rw [hca] at h; simp at h
    | ok meta =>
      rw [hca] at h
      dsimp only at h
      obtain ⟨hm, hmem, hownf⟩ := check_access_ok_facts hca
      have ho : user = meta.owner := hownf rfl
      by_cases ht : target ∈ meta.readable_by
      · rw [if_neg (not_not_intro ht)] at h
        injection h with h1 h2
        subst h1
        rw [hca]
        dsimp only
        rw [if_neg (not_not_intro ht)]
      · rw [if_pos ht] at h
        injection h with h1 h2
        subst h1
        cases hup : lookupKV meta.id s.metas with
        | none =>
          have hred : (s.update_meta (BlobMeta.mk meta.id meta.name meta.owner
              (meta.readable_by ++ [target]) meta.extra)).1 = s := by
            unfold Store.update_meta
            dsimp only
            rw [hup]
          rw [hred, hca]
          dsimp only
          rw [if_pos ht, hred]
        | some m2 =>
          have hred : (s.update_meta (BlobMeta.mk meta.id meta.name meta.owner
              (meta.readable_by ++ [target]) meta.extra)).1 =
              Store.mk (insertKV meta.id (BlobMeta.mk meta.id meta.name meta.owner
                (meta.readable_by ++ [target]) meta.extra) s.metas) s.datas := by
            unfold Store.update_meta
            dsimp only
            rw [hup]
          rw [hred]
          by_cases hkey : meta.id = blob_id
          · have hrm2 : (Store.mk (insertKV meta.id (BlobMeta.mk meta.id meta.name
                meta.owner (meta.readable_by ++ [target]) meta.extra) s.metas)
                  s.datas).read_meta blob_id =
                some (BlobMeta.mk meta.id meta.name meta.owner
                  (meta.readable_by ++ [target]) meta.extra) := by
              unfold Store.read_meta
              dsimp only
              rw [← hkey]
              exact lookupKV_insertKV_self _ _ _
            rw [check_access_owner_ok hrm2 ho]
            dsimp only
            rw [if_neg (not_not_intro (by simp))]
          · have hrm2 : (Store.mk (insertKV meta.id (BlobMeta.mk meta.id meta.name
                meta.owner (meta.readable_by ++ [target]) meta.extra) s.metas)
                  s.datas).read_meta blob_id = some meta := by
              unfold Store.read_meta
              dsimp only
              rw [lookupKV_insertKV_ne (fun hh => hkey hh.symm)]
              exact hm
            rw [check_access_owner_ok hrm2 ho]
            dsimp only
            rw [if_pos ht]
            have hred2 : ((Store.mk (insertKV meta.id (BlobMeta.mk meta.id
                meta.name meta.owner (meta.readable_by ++ [target]) meta.extra)
                  s.metas) s.datas).update_meta
                (BlobMeta.mk meta.id meta.name meta.owner
                  (meta.readable_by ++ [target]) meta.extra)).1 =
                Store.mk (insertKV meta.id (BlobMeta.mk meta.id meta.name
                  meta.owner (meta.readable_by ++ [target]) meta.extra) s.metas)
                  s.datas := by
              unfold Store.update_meta
              dsimp only
              rw [lookupKV_insertKV_self]
              dsimp only
              rw [insertKV_idem]
            rw [hred2]
  · intro meta hm ho ht
    have hca := check_access_owner_ok hm ho
    unfold BlobService.add_reader
    rw [hca]
    dsimp only
    rw [if_neg (not_not_intro ht)]

/-- C6 witness: granting "bob" read access to the blob "b1" of alice twice
yields the same store as granting it once, and re-adding the
already-present reader "alice" is a no-op success. -/
theorem addReader_idempotent_witness :
    BlobService.add_reader
        (BlobService.add_reader sampleStore "alice" "b1" "bob").1
        "alice" "b1" "bob" =
      ((BlobService.add_reader sampleStore "alice" "b1" "bob").1, .ok ()) ∧
    BlobService.add_reader sampleStore "alice" "b1" "alice" =
      (sampleStore, .ok ()) :=
  ⟨(addReader_idempotent sampleStore "alice" "b1" "bob").1
      (BlobService.add_reader sampleStore "alice" "b1" "bob").1 rfl,
   (addReader_idempotent sampleStore "alice" "b1" "alice").2 sampleMeta rfl rfl
      (by decide)⟩

/-- C8: updating content as a non-owner fails with `Forbidden` through
both entry points, and the store — in particular the stored content — is
returned unchanged: the permission check precedes any write. -/
theorem update_nonowner_forbidden (s : Store) (user blob_id : String)
    (new_content : List Nat) (meta : BlobMeta)
    (hmeta : s.read_meta blob_id = some meta) (hown : user ≠ meta.owner) :
    BlobService.update_blob s user blob_id new_content =
      (s, .error (.forbidden blob_id user)) ∧
    BlobService.replace_blob s user blob_id new_content =
      (s, .error (.forbidden blob_id user)) := by
  constructor
  · simp [BlobService.update_blob, hmeta, hown]
  · simp [BlobService.replace_blob, check_access_nonowner hmeta hown]

/-- C8 witness: "bob" cannot replace the content of the blob "b1" of "alice";
the store (hence the stored content `[104, 105]`) is unchanged. -/
theorem update_nonowner_forbidden_witness :
    sampleStore.read_meta "b1" = some sampleMeta ∧ "bob" ≠ sampleMeta.owner ∧
    BlobService.update_blob sampleStore "bob" "b1" [0] =
      (sampleStore, .error (.forbidden "b1" "bob")) ∧
    sampleStore.read_content "b1" = some [104, 105] :=
  ⟨rfl, by decide,
   (update_nonowner_forbidden sampleStore "bob" "b1" [0] sampleMeta rfl
      (by decide)).1, rfl⟩

/-- C9: after a successful delete_blob on an id, subsequent read_blob,
get_meta, update_blob and delete_blob on the same id all fail with
`BlobNotFound` (never `Forbidden`, never silent success), and a second
store-level delete on the same id returns failure. -/
theorem delete_then_notfound (s s' : Store) (user blob_id : String)
    (hdel : BlobService.delete_blob s user blob_id = (s', .ok ())) :
    s'.read_meta blob_id = none ∧ s'.read_content blob_id = none ∧
    (∀ v, BlobService.read_blob s' v blob_id = .error (.notFound blob_id)) ∧
    (∀ v, BlobService.get_meta s' v blob_id = .error (.notFound blob_id)) ∧
    (∀ v c, BlobService.update_blob s' v blob_id c =
      (s', .error (.notFound blob_id))) ∧
    (∀ v, BlobService.delete_blob s' v blob_id =
      (s', .error (.notFound blob_id))) ∧
    Store.delete s' blob_id = (s', false) := by
  have hshape : s'.read_meta blob_id = none ∧ s'.read_content blob_id = none := by
    unfold BlobService.delete_blob at hdel
    cases hca : BlobService.check_access s user blob_id false true with
    | error e => rw [hca] at hdel; simp at hdel
    | ok meta =>
      rw [hca] at hdel
      dsimp only at hdel
      unfold Store.delete at hdel
      by_cases hc : (lookupKV blob_id s.datas).isNone ∨
          (lookupKV blob_id s.metas).isNone
      · rw [if_pos hc] at hdel
        simp at hdel
      · rw [if_neg hc] at hdel
        dsimp only at hdel
        rw [if_pos rfl] at hdel
        injection hdel with h1 h2
        subst h1
        exact ⟨lookupKV_eraseKV_self _ _, lookupKV_eraseKV_self _ _⟩
  obtain ⟨hm, hd⟩ := hshape
  refine ⟨hm, hd, ?_, ?_, ?_, ?_, ?_⟩
  · intro v
    simp [BlobService.read_blob, check_access_absent hm]
  · intro v
    exact check_access_absent hm v true false
  · intro v c
    simp [BlobService.update_blob, hm]
  · intro v
    simp [BlobService.delete_blob, check_access_absent hm]
  · have hd' : lookupKV blob_id s'.datas = none := hd
    unfold Store.delete
    rw [if_pos (Or.inl (by rw [hd']; rfl))]

/-- C9 witness: "alice" deletes her blob "b1"; the resulting store is
empty and a subsequent read of "b1" yields `BlobNotFound`. -/
theorem delete_then_notfound_witness :
    BlobService.delete_blob sampleStore "alice" "b1" = (Store.mk [] [], .ok ()) ∧
    BlobService.read_blob (Store.mk [] []) "alice" "b1" =
      .error (.notFound "b1") :=
  ⟨rfl,
   (delete_then_notfound sampleStore (Store.mk [] []) "alice" "b1" rfl).2.2.1
     "alice"⟩

/-- C3 counterexample: blob "b1" has a metadata record but no content
record (an incomplete record), yet read_blob as the non-reader "bob"
yields `Forbidden "b1" "bob"`, not `BlobNotFound`. -/
theorem readContent_incomplete_forbidden_cex :
    halfStore.read_meta "b1" = some sampleMeta ∧
    halfStore.read_content "b1" = none ∧
    "bob" ∉ sampleMeta.readable_by ∧
    BlobService.read_blob halfStore "bob" "b1" =
      .error (.forbidden "b1" "bob") :=
  ⟨rfl, rfl, by decide, rfl⟩

/-- C3 amended: when the metadata record is absent, read_blob fails with
`BlobNotFound` for every user; when the metadata is present but the
content record is missing, read_blob fails with `BlobNotFound` for users
in the reader list but with `Forbidden` for users outside it — the
permission check precedes the content-existence check. -/
theorem readContent_incomplete (s : Store) (user blob_id : String) :
    (s.read_meta blob_id = none →
      BlobService.read_blob s user blob_id = .error (.notFound blob_id)) ∧
    (∀ meta, s.read_meta blob_id = some meta → s.read_content blob_id = none →
      user ∈ meta.readable_by →
      BlobService.read_blob s user blob_id = .error (.notFound blob_id)) ∧
    (∀ meta, s.read_meta blob_id = some meta → s.read_content blob_id = none →
      user ∉ meta.readable_by →
      BlobService.read_blob s user blob_id = .error (.forbidden blob_id user)) := by
  refine ⟨?_, ?_, ?_⟩
  · intro hm
    simp [BlobService.read_blob, check_access_absent hm]
  · intro meta hm hc hr
    have hca : BlobService.check_access s user blob_id true false = .ok meta := by
      simp [BlobService.check_access, hm, hr]
    simp [BlobService.read_blob, hca, hc]
  · intro meta hm hc hr
    have hca : BlobService.check_access s user blob_id true false =
        .error (.forbidden blob_id user) := by
      simp [BlobService.check_access, hm, hr]
    simp [BlobService.read_blob, hca]

/-- C3 witness (amended claim): on the incomplete record "b1", the
reader "alice" gets `BlobNotFound` while the metadata is present. -/
theorem readContent_incomplete_witness :
    halfStore.read_meta "b1" = some sampleMeta ∧
    halfStore.read_content "b1" = none ∧
    BlobService.read_blob halfStore "alice" "b1" = .error (.notFound "b1") :=
  ⟨rfl, rfl,
   (readContent_incomplete halfStore "alice" "b1").2.1 sampleMeta rfl rfl
     (by decide)⟩

/-- C1: the owner-in-readers invariant holds after every service
operation: create_blob establishes it for the new record even when the
owner is absent from the supplied reader list, set_readable_by re-adds
the owner, and every other mutating operation preserves it (read-only
operations perform no writes). -/
theorem owner_in_readers_invariant (s : Store) (hs : MetaInv s)
    (user nm blob_id target new_name fresh_id : String) (content : List Nat)
    (readable_by : Option (List String)) (extra : Option (List (String × String)))
    (new_list : List String) (onm : Option String) :
    MetaInv (BlobService.create_blob s user nm content readable_by extra fresh_id).1 ∧
    MetaInv (BlobService.update_blob s user blob_id content).1 ∧
    MetaInv (BlobService.delete_blob s user blob_id).1 ∧
    MetaInv (BlobService.modify_blob s user blob_id onm).1 ∧
    MetaInv (BlobService.replace_blob s user blob_id content).1 ∧
    MetaInv (BlobService.set_readable_by s user blob_id new_list).1 ∧
    MetaInv (BlobService.set_name s user blob_id new_name).1 ∧
    MetaInv (BlobService.add_reader s user blob_id target).1 ∧
    MetaInv (BlobService.remove_reader s user blob_id target).1 := by
  refine ⟨?_, ?_, ?_, ?_, ?_, ?_, ?_, ?_, ?_⟩
  · exact metaInv_insert hs (by simp [List.mem_dedup]) _
  · unfold BlobService.update_blob
    cases hm : s.read_meta blob_id with
    | none => exact hs
    | some meta =>
      dsimp only
      by_cases ho : user ≠ meta.owner
      · rw [if_pos ho]; exact hs
      · rw [if_neg ho]
        by_cases hb : (s.update_content blob_id content).2 = true
        · rw [if_pos hb]; exact metaInv_update_content hs _ _
        · rw [if_neg hb]; exact metaInv_update_content hs _ _
  · unfold BlobService.delete_blob
    cases hca : BlobService.check_access s user blob_id false true with
    | error e => exact hs
    | ok meta =>
      dsimp only
      by_cases hb : (s.delete blob_id).2 = true
      · rw [if_pos hb]; exact metaInv_delete hs _
      · rw [if_neg hb]; exact metaInv_delete hs _
  · unfold BlobService.modify_blob
    cases hca : BlobService.check_access s user blob_id false true with
    | error e => exact hs
    | ok meta =>
      obtain ⟨-, hmem, -⟩ := check_access_ok_facts hca
      cases onm with
      | none => exact hs
      | some nn =>
        dsimp only
        by_cases hnn : nn = ""
        · rw [if_pos hnn]; exact hs
        · rw [if_neg hnn]; exact metaInv_update_meta hs (hs _ hmem)
  · unfold BlobService.replace_blob
    cases hca : BlobService.check_access s user blob_id false true with
    | error e => exact hs
    | ok meta =>
      dsimp only
      by_cases hb : (s.update_content blob_id content).2 = true
      · rw [if_pos hb]; exact metaInv_update_content hs _ _
      · rw [if_neg hb]; exact metaInv_update_content hs _ _
  · unfold BlobService.set_readable_by
    cases hca : BlobService.check_access s user blob_id false true with
    | error e => exact hs
    | ok meta =>
      obtain ⟨-, -, hof⟩ := check_access_ok_facts hca
      dsimp only
      refine metaInv_update_meta hs ?_
      dsimp only
      rw [List.mem_dedup, ← hof rfl]
      by_cases hin : user ∈ new_list
      · rw [if_pos hin]; exact hin
      · rw [if_neg hin]; simp
  · unfold BlobService.set_name
    cases hca : BlobService.check_access s user blob_id false true with
    | error e => exact hs
    | ok meta =>
      obtain ⟨-, hmem, -⟩ := check_access_ok_facts hca
      exact metaInv_update_meta hs (hs _ hmem)
  · unfold BlobService.add_reader
    cases hca : BlobService.check_access s user blob_id false true with
    | error e => exact hs
    | ok meta =>
      obtain ⟨-, hmem, -⟩ := check_access_ok_facts hca
      dsimp only
      by_cases ht : target ∉ meta.readable_by
      · rw [if_pos ht]
        refine metaInv_update_meta hs ?_
        dsimp only
        exact List.mem_append_left _ (hs _ hmem)
      · rw [if_neg ht]; exact hs
  · unfold BlobService.remove_reader
    cases hca : BlobService.check_access s user blob_id false true with
    | error e => exact hs
    | ok meta =>
      obtain ⟨-, hmem, -⟩ := check_access_ok_facts hca
      dsimp only
      by_cases hcnd : target ∈ meta.readable_by ∧ target ≠ meta.owner
      · rw [if_pos hcnd]
        refine metaInv_update_meta hs ?_
        dsimp only
        exact mem_removeFirst (hs _ hmem) (Ne.symm hcnd.2)
      · rw [if_neg hcnd]; exact hs

/-- C1 witness: the invariant holds of the sample store and is still
true after granting "bob" read access to "b1". -/
theorem owner_in_readers_invariant_witness :
    MetaInv sampleStore ∧
    MetaInv (BlobService.add_reader sampleStore "alice" "b1" "bob").1 :=
  ⟨by decide,
   (owner_in_readers_invariant sampleStore (by decide) "alice" "n" "b1" "bob"
      "m" "f" [] none none [] none).2.2.2.2.2.2.2.1⟩

end BlobStore
